import Mathlib

set_option maxHeartbeats 1000000

/-!
Verification of the flat-routes engine of this repository
(`packages/remix-dev/config/flat-routes.ts`): the segment tokenizer, the
path builder, index-route detection, parent resolution, the route-map
builder and the tree assembler / conflict detector.

Strings are modelled as Lean `String`; every JavaScript string operation is
implemented explicitly over the character list (`String.data`) so that the
semantics are transparent and kernel-evaluable.
-/

/-- Tests whether `pat` is a prefix of `l` (character lists). -/
def leadsWith : List Char → List Char → Bool
  | [], _ => true
  | _ :: _, [] => false
  | p :: ps, c :: cs => p == c && leadsWith ps cs

/-- Tests whether `pat` occurs as a contiguous sublist of `l`. -/
def occursIn (pat : List Char) : List Char → Bool
  | [] => leadsWith pat []
  | c :: rest => leadsWith pat (c :: rest) || occursIn pat rest

/-- JavaScript `s.endsWith(t)`. -/
def strEndsWith (s t : String) : Bool := leadsWith t.data.reverse s.data.reverse

/-- JavaScript `segment.startsWith("_")`. -/
def strStartsWithUnderscore (s : String) : Bool :=
  match s.data with
  | '_' :: _ => true
  | _ => false

/-- JavaScript `segment.endsWith("_")`. -/
def strEndsWithUnderscore (s : String) : Bool :=
  match s.data.getLast? with
  | some '_' => true
  | _ => false

/-- Modelled from the spec: `escapeStart` from config/routesConvention.ts
(not under src/) — the escape-start character `[`. -/
def escapeStart : Char := '['

/-- Modelled from the spec: `escapeEnd` from config/routesConvention.ts
(not under src/) — the escape-end character `]`. -/
def escapeEnd : Char := ']'

/-- Modelled from the spec: `optionalStart` from config/routesConvention.ts
(not under src/) — the optional-segment start character `(`. -/
def optionalStart : Char := '('

/-- Modelled from the spec: `optionalEnd` from config/routesConvention.ts
(not under src/) — the optional-segment end character `)`. -/
def optionalEnd : Char := ')'

/-- Modelled from the spec: `paramPrefixChar` from config/routesConvention.ts
(not under src/) — the parameter prefix character `$`. -/
def paramPrefixChar : Char := '$'

/-- Modelled from the spec: `isSegmentSeparator` from config/routesConvention.ts
(not under src/). Separator characters are `/`, `.` and the Windows path
separator `\` (the source comment in flat-routes.ts lists them as
"`/`, `.`, '\'"). -/
def isSegmentSeparator (c : Char) : Bool := c = '/' || c = '.' || c = '\\'

/-- The "cannot contain" error text thrown by `notSupportedInRR` inside
`pushRouteSegment` of getRouteSegments. -/
def nsMsg (routeId segment char : String) : String :=
  "Route segment \"" ++ segment ++ "\" for \"" ++ routeId ++
    "\" cannot contain \"" ++ char ++ "\".\n" ++
    "If this is something you need, upvote this proposal for React Router " ++
    "https://github.com/remix-run/react-router/discussions/9822."

/-- `pushRouteSegment` of getRouteSegments: drop an empty segment, reject a
raw segment containing `*`, `:` or `/`, otherwise append the normalized
segment. The `*` and `:` errors report the raw segment, the `/` error
reports the normalized segment, exactly as the source does. -/
def pushSeg (routeId : String) (acc : List String) (seg raw : List Char) :
    Except String (List String) :=
  if seg = [] then .ok acc
  else if raw.contains '*' then .error (nsMsg routeId (String.mk raw) "*")
  else if raw.contains ':' then .error (nsMsg routeId (String.mk raw) ":")
  else if raw.contains '/' then .error (nsMsg routeId (String.mk seg) "/")
  else .ok (acc ++ [String.mk seg])

/-- The four tokenizer states of getRouteSegments. -/
inductive TokState where
  | NORMAL
  | ESCAPE
  | OPTIONAL
  | OPTIONAL_ESCAPE
deriving DecidableEq

/-- The character loop of `getRouteSegments`: `acc` is `routeSegments`,
`seg` is `routeSegment`, `raw` is `rawRouteSegment`, and the remaining
input is the character list. `index === routeId.length` in the source
(the current character is the last one) corresponds to the remaining tail
being empty. After the loop the terminal segment is flushed through
`pushSeg` regardless of the state. -/
def tokGo (routeId : String) :
    List String → List Char → List Char → TokState → List Char →
    Except String (List String)
  | acc, seg, raw, _, [] => pushSeg routeId acc seg raw
  | acc, seg, raw, .NORMAL, c :: cs =>
    if isSegmentSeparator c then
      match pushSeg routeId acc seg raw with
      | .error e => .error e
      | .ok acc1 => tokGo routeId acc1 [] [] .NORMAL cs
    else if c = escapeStart then tokGo routeId acc seg raw .ESCAPE cs
    else if c = optionalStart then tokGo routeId acc seg raw .OPTIONAL cs
    else if seg = [] && c = paramPrefixChar then
      if cs = [] then tokGo routeId acc (seg ++ ['*']) (raw ++ [c]) .NORMAL cs
      else tokGo routeId acc (seg ++ [':']) (raw ++ [c]) .NORMAL cs
    else tokGo routeId acc (seg ++ [c]) (raw ++ [c]) .NORMAL cs
  | acc, seg, raw, .ESCAPE, c :: cs =>
    if c = escapeEnd then tokGo routeId acc seg raw .NORMAL cs
    else tokGo routeId acc (seg ++ [c]) (raw ++ [c]) .ESCAPE cs
  | acc, seg, raw, .OPTIONAL, c :: cs =>
    if c = optionalEnd then
      tokGo routeId acc (seg ++ ['?']) (raw ++ ['?']) .NORMAL cs
    else if c = escapeStart then tokGo routeId acc seg raw .OPTIONAL_ESCAPE cs
    else if seg = [] && c = paramPrefixChar then
      if cs = [] then tokGo routeId acc (seg ++ ['*']) (raw ++ [c]) .OPTIONAL cs
      else tokGo routeId acc (seg ++ [':']) (raw ++ [c]) .OPTIONAL cs
    else tokGo routeId acc (seg ++ [c]) (raw ++ [c]) .OPTIONAL cs
  | acc, seg, raw, .OPTIONAL_ESCAPE, c :: cs =>
    if c = escapeEnd then tokGo routeId acc seg raw .OPTIONAL cs
    else tokGo routeId acc (seg ++ [c]) (raw ++ [c]) .OPTIONAL_ESCAPE cs

/-- The characters strictly before the last `/` of the list; the list itself
when it has no `/` (matching `substring(0, lastIndexOf("/"))` guarded by
`last >= 0`). -/
def beforeLastSlash (l : List Char) : List Char :=
  match l.reverse.dropWhile (fun c => !(c == '/')) with
  | [] => l
  | _ :: rest => rest.reverse

/-- The folder-marker preprocessing of getRouteSegments: if the route id
contains a directory separator and ends with `/index` or `/route`, cut the
id at its last `/`. -/
def stripFolderMarker (routeId : String) : String :=
  if (routeId.data.any (fun c => c = '/' || c = '\\')) &&
      (strEndsWith routeId "/index" || strEndsWith routeId "/route") then
    String.mk (beforeLastSlash routeId.data)
  else routeId

/-- `getRouteSegments` of flat-routes.ts. -/
def getRouteSegments (routeId : String) : Except String (List String) :=
  let rid := stripFolderMarker routeId
  tokGo rid [] [] [] .NORMAL rid.data

/-- The `(\/[^/]+)?$` tail of the first alternative of `indexRouteRegex`:
either nothing, or a `/` followed by one or more non-`/` characters, then
end of input. -/
def idxTail (l : List Char) : Bool :=
  l = [] ||
    (match l with
     | '/' :: rest => !(rest = []) && rest.all (fun c => !(c == '/'))
     | _ => false)

/-- `(index|_index)` followed by the optional tail, ending the string. -/
def idxNameTail (l : List Char) : Bool :=
  (leadsWith "index".data l && idxTail (l.drop 5)) ||
  (leadsWith "_index".data l && idxTail (l.drop 6))

/-- One candidate start position of the first alternative of
`indexRouteRegex`: the `(^|[.]|[+]\/)` lead-in followed by the name and
tail. -/
def idxMatchAt (l : List Char) (atStart : Bool) : Bool :=
  (atStart && idxNameTail l) ||
  (match l with
   | '.' :: rest => idxNameTail rest
   | _ => false) ||
  (match l with
   | '+' :: '/' :: rest => idxNameTail rest
   | _ => false)

/-- Unanchored search for the first alternative of `indexRouteRegex`. -/
def idxSearch : Bool → List Char → Bool
  | atStart, [] => idxMatchAt [] atStart
  | atStart, c :: rest => idxMatchAt (c :: rest) atStart || idxSearch false rest

/-- `indexRouteRegex.test` of flat-routes.ts:
`/((^|[.]|[+]\/)(index|_index))(\/[^/]+)?$|(\/_?index\/)/`. The second
top-level alternative is a plain substring search for `/index/` or
`/_index/`. -/
def indexRouteRegexTest (s : String) : Bool :=
  idxSearch true s.data ||
    occursIn "/index/".data s.data || occursIn "/_index/".data s.data

/-- `isIndexRoute` of flat-routes.ts: a flat id (no `/`) is an index route
iff it ends with `_index`; an id containing `/` is tested against
`indexRouteRegex`. -/
def isIndexRoute (routeId : String) : Bool :=
  let isFlatFile := !(routeId.data.any (fun c => c = '/'))
  if isFlatFile then strEndsWith routeId "_index"
  else indexRouteRegexTest routeId

/-- The accumulation loop of `createRoutePath`: skip segments starting with
`_`, strip one trailing `_`, and append `/segment` to the result. -/
def createRoutePathLoop : List String → String → String
  | [], result => result
  | segment :: rest, result =>
    if strStartsWithUnderscore segment then createRoutePathLoop rest result
    else
      let segment1 := if strEndsWithUnderscore segment
        then String.mk segment.data.dropLast else segment
      createRoutePathLoop rest (result ++ "/" ++ segment1)

/-- `createRoutePath` of flat-routes.ts: drop the last segment when the
route is an index route, run the loop, and return `none` for an empty
result. -/
def createRoutePath (routeSegments : List String) (isIndex : Bool) : Option String :=
  let segs := if isIndex then routeSegments.dropLast else routeSegments
  let result := createRoutePathLoop segs ""
  if result = "" then none else some result

/-- `RouteInfo` of flat-routes.ts: a `ConfigRoute` extended with the
ancestor-lookup `name` and the `segments` it is joined from. -/
structure RouteInfo where
  id : String
  path : Option String
  file : String
  name : String
  segments : List String
  index : Bool
  parentId : Option String := none
deriving DecidableEq

/-- JavaScript `Array.prototype.join("/")`. -/
def strJoinSlash : List String → String
  | [] => ""
  | [s] => s
  | s :: t :: rest => s ++ "/" ++ strJoinSlash (t :: rest)

/-- JavaScript `parentName.substring(0, parentName.lastIndexOf("/"))`: the
characters strictly before the last `/`, and `""` when there is no `/`
(`lastIndexOf` is `-1` and `substring` clamps to the empty range). -/
def truncAtLastSlash (s : String) : String :=
  match s.data.reverse.dropWhile (fun c => !(c == '/')) with
  | [] => ""
  | _ :: rest => String.mk rest.reverse

/-- The `while (parentName)` loop of `findParentRouteId`, with explicit
fuel; each iteration strictly shortens the candidate name, so
`length + 1` steps always suffice. -/
def findParentAux (nameMap : List (String × RouteInfo)) : Nat → String → Option String
  | 0, _ => none
  | fuel + 1, parentName =>
    if parentName = "" then none
    else
      match List.lookup parentName nameMap with
      | some parentRoute => some parentRoute.id
      | none => findParentAux nameMap fuel (truncAtLastSlash parentName)

/-- The starting candidate of `findParentRouteId`:
`routeInfo.segments.slice(0, -1).join("/")`. -/
def parentNameOf (info : RouteInfo) : String := strJoinSlash info.segments.dropLast

/-- `findParentRouteId` of flat-routes.ts. -/
def findParentRouteId (info : RouteInfo) (nameMap : List (String × RouteInfo)) :
    Option String :=
  let pn := parentNameOf info
  findParentAux nameMap (pn.data.length + 1) pn

/-- Modelled from the spec: node's `path.extname` — the extension of the
final path component, from its last `.` (a dot at position 0 of the
component yields no extension). -/
def extname (filePath : String) : String :=
  let base := (filePath.data.reverse.takeWhile (fun c => !(c == '/'))).reverse
  let revExt := base.reverse.takeWhile (fun c => !(c == '.'))
  if revExt.length + 2 ≤ base.length then String.mk ('.' :: revExt.reverse) else ""

/-- Modelled from the spec: `routeModuleExts` from config/routesConvention.ts
(not under src/) — the recognized route-module file extensions. -/
def routeModuleExts : List String := [".js", ".jsx", ".ts", ".tsx", ".md", ".mdx"]

/-- Characters admitted by the `[^/\\:?*]` class of `routeRegex`. -/
def allowedRRChar (c : Char) : Bool :=
  !(c = '/' || c = '\\' || c = ':' || c = '?' || c = '*')

/-- The `\.(tsx?|jsx?|mdx?)$` endings of `routeRegex`, dots included. -/
def extsRR : List (List Char) :=
  [".ts", ".tsx", ".js", ".jsx", ".md", ".mdx"].map String.data

/-- Decides whether `l` decomposes as `w ++ "." ++ ext ++ end` with `w`
nonempty and inside the `[^/\\:?*]` class — the `[+][/\\][^/\\:?*]+` and
`_[^/\\:?*]+` alternatives of `routeRegex` followed by the extension. -/
def splitsAsExt (l : List Char) : Bool :=
  extsRR.any (fun e =>
    leadsWith e.reverse l.reverse &&
      (let w := l.take (l.length - e.length)
       !(w = []) && w.all allowedRRChar))

/-- One candidate start position of `routeRegex`: one of the three grouped
alternatives, immediately followed by `.ext` at the end of the string. -/
def routeRegexMatchAt (l : List Char) : Bool :=
  (match l with
   | '+' :: c :: rest => (c = '/' || c = '\\') && splitsAsExt rest
   | _ => false) ||
  (match l with
   | c :: rest =>
     (c = '/' || c = '\\') &&
       ((leadsWith "index".data rest && extsRR.contains (rest.drop 5)) ||
        (leadsWith "route".data rest && extsRR.contains (rest.drop 5)))
   | _ => false) ||
  (match l with
   | '_' :: rest => splitsAsExt rest
   | _ => false)

/-- Unanchored search for `routeRegexMatchAt` over all start positions. -/
def routeRegexSearch : List Char → Bool
  | [] => routeRegexMatchAt []
  | c :: rest => routeRegexMatchAt (c :: rest) || routeRegexSearch rest

/-- `routeRegex.test` of flat-routes.ts:
`/(([+][/\\][^/\\:?*]+)|[/\\](index|route)|(_[^/\\:?*]+))\.(tsx?|jsx?|mdx?)$$/`. -/
def routeRegexTest (s : String) : Bool := routeRegexSearch s.data

/-- `isRouteModuleFile` of flat-routes.ts: a flat file only needs a
recognized extension; a nested file must additionally match `routeRegex`. -/
def isRouteModuleFile (filePath : String) : Bool :=
  let isFlatFile := !(filePath.data.any (fun c => c = '/'))
  if isFlatFile then routeModuleExts.any (fun e => e == extname filePath)
  else routeRegexTest filePath

/-- Modelled from the spec: `createRouteId` from config/routes.ts (not under
src/) — the file's relative path with directory separators normalized to
`/` and the file extension (the part from the last `.` of the final
component) removed. -/
def createRouteId (file : String) : String :=
  let normalized := file.data.map (fun c => if c = '\\' then '/' else c)
  let rev := normalized.reverse
  let revExtPart := rev.takeWhile (fun c => !(c = '.' || c = '/'))
  let revNoExt :=
    match rev.drop revExtPart.length with
    | '.' :: restRev => restRev
    | _ => rev
  String.mk revNoExt.reverse

/-- JavaScript `routeId.split("/")` on a character list. -/
def splitOnSlash : List Char → List (List Char)
  | [] => [[]]
  | c :: rest =>
    if c = '/' then [] :: splitOnSlash rest
    else
      match splitOnSlash rest with
      | [] => [[c]]
      | seg :: segs => (c :: seg) :: segs

/-- `createFlatRouteId` of flat-routes.ts: collapse a trailing `/index`
folder component of the route id. -/
def createFlatRouteId (filePath : String) : String :=
  let routeId := createRouteId filePath
  if routeId.data.any (fun c => c = '/') && strEndsWith routeId "/index" then
    strJoinSlash (((splitOnSlash routeId.data).map String.mk).dropLast)
  else routeId

/-- JavaScript `s.slice(n)` for a nonnegative `n`: drop the first `n`
characters. -/
def jsSliceFrom (s : String) (n : Nat) : String := String.mk (s.data.drop n)

/-- `getRouteInfo` of flat-routes.ts. Fails when the tokenizer rejects a
segment. -/
def getRouteInfo (appDirectory routeDirectory filePath : String) :
    Except String RouteInfo :=
  let filePathWithoutApp := jsSliceFrom filePath (appDirectory.data.length + 1)
  let routeId := createFlatRouteId filePathWithoutApp
  let routeIdWithoutRoutes := jsSliceFrom routeId (routeDirectory.data.length + 1)
  let index := isIndexRoute routeIdWithoutRoutes
  match getRouteSegments routeIdWithoutRoutes with
  | .error e => .error e
  | .ok routeSegments =>
    .ok { id := routeIdWithoutRoutes
          path := createRoutePath routeSegments index
          file := filePathWithoutApp
          name := strJoinSlash routeSegments
          segments := routeSegments
          index := index
          parentId := none }

/-- JavaScript `Map.prototype.set`: update the value in place when the key
exists (keeping insertion order), otherwise append a new entry. -/
def assocSet (m : List (String × RouteInfo)) (k : String) (v : RouteInfo) :
    List (String × RouteInfo) :=
  if m.any (fun e => e.1 == k) then
    m.map (fun e => if e.1 == k then (k, v) else e)
  else m ++ [(k, v)]

/-- Modelled from the spec: node's `path.join` for the simple
`appDirectory`/`prefix` arguments used here. -/
def posixJoin (a b : String) : String := a ++ "/" ++ b

/-- The file loop of `getRouteMap`: build the id-keyed `routeMap` and the
name-keyed `nameMap`, skipping files `isRouteModuleFile` rejects. -/
def buildMaps (appDirectory pfx : String) :
    List String → List (String × RouteInfo) → List (String × RouteInfo) →
    Except String (List (String × RouteInfo) × List (String × RouteInfo))
  | [], routeMap, nameMap => .ok (routeMap, nameMap)
  | routePath :: rest, routeMap, nameMap =>
    let routesDirectory := posixJoin appDirectory pfx
    let pathWithoutAppRoutes := jsSliceFrom routePath (routesDirectory.data.length + 1)
    if isRouteModuleFile pathWithoutAppRoutes then
      match getRouteInfo appDirectory pfx routePath with
      | .error e => .error e
      | .ok info =>
        buildMaps appDirectory pfx rest
          (assocSet routeMap info.id info) (assocSet nameMap info.name info)
    else buildMaps appDirectory pfx rest routeMap nameMap

/-- `getRouteMap` of flat-routes.ts: build both maps, then resolve every
route's `parentId` through `findParentRouteId` (the mutation pass only
reads ids from `nameMap`, so it is order-independent and modelled as a
pure map). -/
def getRouteMap (appDirectory : String) (routePaths : List String) (pfx : String) :
    Except String (List (String × RouteInfo)) :=
  match buildMaps appDirectory pfx routePaths [] [] with
  | .error e => .error e
  | .ok (routeMap, nameMap) =>
    .ok (routeMap.map (fun e =>
      (e.1, { e.2 with parentId := findParentRouteId e.2 nameMap })))

/-- The shared `uniqueRoutes` table of `flatRoutesUniversal`: uniqueness key
to route id. -/
abbrev UniqMap := List (String × String)

/-- Modelled from the spec: one entry of the route manifest that
`defineRoutes` (config/routes.ts, not under src/) collects from each
`defineRoute` call — the fully-qualified id, the parent-relative path, the
source file and the index flag; parent linkage is implicit in the emission
tree. -/
structure ManifestRoute where
  id : String
  path : String
  file : String
  index : Bool
deriving DecidableEq

/-- JavaScript `Object.values` applied to a `Map` value: a JS `Map` keeps
its entries in internal slots, not as enumerable own properties, so
`Object.values` of any `Map` instance is the empty array.
`defineNestedRoutes` calls it on `routeMap`, which is a `Map`. -/
def objectValuesOfMap (_ : List (String × RouteInfo)) : List RouteInfo := []

/-- The uniqueness key of a route:
`(fullPath || "") + (index ? "?index" : "")`. -/
def uniqueRouteIdOf (r : RouteInfo) : String :=
  (r.path.getD "") ++ (if r.index then "?index" else "")

/-- JavaScript `JSON.stringify` on `string | undefined` as interpolated into
the conflict message. -/
def jsonShow : Option String → String
  | none => "undefined"
  | some p => "\"" ++ p ++ "\""

/-- The `RouteConflictError` message of `defineNestedRoutes`. -/
def conflictMsg (fullPath : Option String) (childId conflictId : String) : String :=
  "Path " ++ jsonShow fullPath ++ " defined by route \"" ++ childId ++
    "\" conflicts with route \"" ++ conflictId ++ "\""

/-- The `InvalidIndexChildError` message of `defineNestedRoutes`. -/
def invalidIndexChildMsg (id : String) : String :=
  "Child routes are not allowed in index routes. Please remove child routes of " ++ id

/-- The parent-relative path of a child route:
`childRoute.path?.slice(parentRoutePath.length) ?? ""` followed by
`replace(/^\//, "")`. -/
def relativeRoutePath (parentRoutePath : String) (p : Option String) : String :=
  let s := match p with
    | none => ""
    | some q => String.mk (q.data.drop parentRoutePath.data.length)
  match s.data with
  | '/' :: rest => String.mk rest
  | _ => s

/-- The `uniqueRouteId` block of `defineNestedRoutes`: an empty key is not
checked or registered; a registered key raises the conflict error;
otherwise the key is registered for the child route. -/
def registerUnique (uniq : UniqMap) (childRoute : RouteInfo) : Except String UniqMap :=
  let uniqueRouteId := uniqueRouteIdOf childRoute
  if uniqueRouteId = "" then .ok uniq
  else
    match List.lookup uniqueRouteId uniq with
    | some conflict => .error (conflictMsg childRoute.path childRoute.id conflict)
    | none => .ok (uniq ++ [(uniqueRouteId, childRoute.id)])

/-- The `for (let childRoute of childRoutes)` loop of `defineNestedRoutes`,
parameterized by the recursive call for a child's own children (`recurse`).
Routes are emitted parent-first, immediately followed by their children,
then the remaining siblings, mirroring `defineRoutes`' collection order;
the `uniqueRoutes` table threads through the whole traversal. The
index-route branch recomputes `invalidChildRoutes` through
`objectValuesOfMap` exactly as the source does. -/
def processChildrenAux
    (recurse : Option String → UniqMap → Except String (List ManifestRoute × UniqMap))
    (routeMap : List (String × RouteInfo)) (pfx : String) (parentRoutePath : String) :
    List RouteInfo → UniqMap → Except String (List ManifestRoute × UniqMap)
  | [], uniq => .ok ([], uniq)
  | childRoute :: rest, uniq =>
    let routePath := relativeRoutePath parentRoutePath childRoute.path
    match registerUnique uniq childRoute with
    | .error e => .error e
    | .ok uniq1 =>
      if childRoute.index then
        if 0 < ((objectValuesOfMap routeMap).filter
            (fun r => r.parentId == some childRoute.id)).length then
          .error (invalidIndexChildMsg childRoute.id)
        else
          match processChildrenAux recurse routeMap pfx parentRoutePath rest uniq1 with
          | .error e => .error e
          | .ok (ems, u2) =>
            .ok ({ id := posixJoin pfx childRoute.id, path := routePath,
                   file := childRoute.file, index := true } :: ems, u2)
      else
        match recurse (some childRoute.id) uniq1 with
        | .error e => .error e
        | .ok (childEms, u2) =>
          match processChildrenAux recurse routeMap pfx parentRoutePath rest u2 with
          | .error e => .error e
          | .ok (ems, u3) =>
            .ok ({ id := posixJoin pfx childRoute.id, path := routePath,
                   file := childRoute.file, index := false } :: (childEms ++ ems), u3)

/-- `defineNestedRoutes` of flat-routes.ts, with explicit recursion fuel:
select the children of `parentId`, compute the parent's path (`"/"` at the
root or for an unresolvable parent), and run the child loop. Fuel `0` is
the JavaScript stack overflowing, which no real route set reaches. -/
def defineNestedRoutesAux (routes : List RouteInfo)
    (routeMap : List (String × RouteInfo)) (pfx : String) :
    Nat → Option String → UniqMap → Except String (List ManifestRoute × UniqMap)
  | 0, _, _ => .error "Maximum call stack size exceeded"
  | fuel + 1, parentId, uniq =>
    let childRoutes := routes.filter (fun r => r.parentId == parentId)
    let parentRoute := parentId.bind (fun pid => List.lookup pid routeMap)
    let parentRoutePath := (parentRoute.bind (fun r => r.path)).getD "/"
    processChildrenAux (defineNestedRoutesAux routes routeMap pfx fuel)
      routeMap pfx parentRoutePath childRoutes uniq

/-- `flatRoutesUniversal` of flat-routes.ts: build the route map, then emit
the nested route tree from the root. -/
def flatRoutesUniversal (appDirectory : String) (routePaths : List String)
    (pfx : String) : Except String (List ManifestRoute) :=
  match getRouteMap appDirectory routePaths pfx with
  | .error e => .error e
  | .ok routeMap =>
    let routes := routeMap.map (fun e => e.2)
    match defineNestedRoutesAux routes routeMap pfx (routes.length + 1) none [] with
    | .error e => .error e
    | .ok (manifest, _) => .ok manifest

set_option maxRecDepth 100000

instance exceptDecEq {ε α : Type} [DecidableEq ε] [DecidableEq α] :
    DecidableEq (Except ε α) := fun x y =>
  match x, y with
  | .ok a, .ok b =>
    if h : a = b then isTrue (by rw [h]) else isFalse (fun hh => h (by cases hh; rfl))
  | .error a, .error b =>
    if h : a = b then isTrue (by rw [h]) else isFalse (fun hh => h (by cases hh; rfl))
  | .ok _, .error _ => isFalse (fun hh => Except.noConfusion hh)
  | .error _, .ok _ => isFalse (fun hh => Except.noConfusion hh)

/-- A raw segment text containing one of the characters that
`pushRouteSegment` rejects. -/
def hasBadRawChar (raw : List Char) : Bool :=
  raw.contains '*' || raw.contains ':' || raw.contains '/'

/-- The (normalized, raw) pairs of the nonempty segments the tokenizer
emits, collected with the failure check removed: the same state machine as
`tokGo`, used to state exactly when `getRouteSegments` fails. -/
def collectGo : List Char → List Char → TokState → List Char →
    List (List Char × List Char)
  | seg, raw, _, [] => if seg = [] then [] else [(seg, raw)]
  | seg, raw, .NORMAL, c :: cs =>
    if isSegmentSeparator c then
      (if seg = [] then [] else [(seg, raw)]) ++ collectGo [] [] .NORMAL cs
    else if c = escapeStart then collectGo seg raw .ESCAPE cs
    else if c = optionalStart then collectGo seg raw .OPTIONAL cs
    else if seg = [] && c = paramPrefixChar then
      if cs = [] then collectGo (seg ++ ['*']) (raw ++ [c]) .NORMAL cs
      else collectGo (seg ++ [':']) (raw ++ [c]) .NORMAL cs
    else collectGo (seg ++ [c]) (raw ++ [c]) .NORMAL cs
  | seg, raw, .ESCAPE, c :: cs =>
    if c = escapeEnd then collectGo seg raw .NORMAL cs
    else collectGo (seg ++ [c]) (raw ++ [c]) .ESCAPE cs
  | seg, raw, .OPTIONAL, c :: cs =>
    if c = optionalEnd then collectGo (seg ++ ['?']) (raw ++ ['?']) .NORMAL cs
    else if c = escapeStart then collectGo seg raw .OPTIONAL_ESCAPE cs
    else if seg = [] && c = paramPrefixChar then
      if cs = [] then collectGo (seg ++ ['*']) (raw ++ [c]) .OPTIONAL cs
      else collectGo (seg ++ [':']) (raw ++ [c]) .OPTIONAL cs
    else collectGo (seg ++ [c]) (raw ++ [c]) .OPTIONAL cs
  | seg, raw, .OPTIONAL_ESCAPE, c :: cs =>
    if c = escapeEnd then collectGo seg raw .OPTIONAL cs
    else collectGo (seg ++ [c]) (raw ++ [c]) .OPTIONAL_ESCAPE cs

/-- The raw segments `getRouteSegments` would emit for a route id
(normalized and raw text of each nonempty segment), failure checks
removed. -/
def rawEmittedSegments (routeId : String) : List (List Char × List Char) :=
  let rid := stripFolderMarker routeId
  collectGo [] [] .NORMAL rid.data

/-- A character with no special meaning anywhere in the tokenizer: not a
segment separator, not an escape or optional delimiter, not the parameter
prefix, and not one of the reserved characters of `pushRouteSegment`. -/
def plainChar (c : Char) : Bool :=
  !(c = '/' || c = '.' || c = '\\' || c = '[' || c = ']' || c = '(' ||
    c = ')' || c = '$' || c = '*' || c = ':')

/-- The Path Builder exactly as the specification words it: drop the last
segment when the index flag is set, skip every segment starting with `_`,
strip a single trailing `_` from segments ending with it, prefix each
remaining segment with `/` and concatenate in order, and return nothing
when no segments remain. -/
def specCreateRoutePathKept (routeSegments : List String) (isIndex : Bool) : List String :=
  let segs := if isIndex then routeSegments.dropLast else routeSegments
  (segs.filter (fun s => !(strStartsWithUnderscore s))).map
    (fun s => if strEndsWithUnderscore s then String.mk s.data.dropLast else s)

/-- The Path Builder as specified (see `specCreateRoutePathKept`). -/
def specCreateRoutePath (routeSegments : List String) (isIndex : Bool) :
    Option String :=
  match specCreateRoutePathKept routeSegments isIndex with
  | [] => none
  | kept => some (kept.foldl (fun acc s => acc ++ "/" ++ s) "")

/-- The Parent Resolver as specified, on segment lists from longest proper
prefix downward: look the slash-join of the segments up in the name map,
and drop the last segment on a miss. The argument is the reversed segment
list so that the recursion is structural. -/
def specAncestorRev (nameMap : List (String × RouteInfo)) : List String → Option String
  | [] => none
  | s :: rest =>
    match List.lookup (strJoinSlash (s :: rest).reverse) nameMap with
    | some parentRoute => some parentRoute.id
    | none => specAncestorRev nameMap rest

/-- The Parent Resolver as specified: try every proper prefix of the
segment list, longest first, and return the id registered under the first
name that is present. -/
def specAncestor (nameMap : List (String × RouteInfo)) (segs : List String) :
    Option String :=
  specAncestorRev nameMap segs.reverse

/-- A manifest entry `e` traceable to the flat route set: it was emitted
for some `RouteInfo` of `routes` whose parent context is either the given
one or a non-index route of the set, and whose nonempty uniqueness key is
registered in the final key table `u`. -/
def EmittedFrom (routes : List RouteInfo) (pfx : String) (pidCtx : Option String)
    (u : UniqMap) (e : ManifestRoute) : Prop :=
  ∃ r, r ∈ routes ∧ e.id = posixJoin pfx r.id ∧
    (r.parentId = pidCtx ∨ ∃ q, q ∈ routes ∧ q.index = false ∧ r.parentId = some q.id) ∧
    (uniqueRouteIdOf r = "" ∨ (uniqueRouteIdOf r, r.id) ∈ u)

/-- The invariant a recursive tree-emission call maintains: the key table
only grows, distinct keys stay distinct, and every emitted entry is
traceable (`EmittedFrom`). -/
def GoodEmitter (routes : List RouteInfo) (pfx : String)
    (f : Option String → UniqMap → Except String (List ManifestRoute × UniqMap)) :
    Prop :=
  ∀ pid uniq em u, f pid uniq = .ok (em, u) →
    (∀ kv ∈ uniq, kv ∈ u) ∧
    ((uniq.map Prod.fst).Nodup → (u.map Prod.fst).Nodup) ∧
    (∀ e ∈ em, EmittedFrom routes pfx pid u e)

/-- The two route files of the index-with-child scenario. -/
def c1Files : List String := ["app/routes/a._index.tsx", "app/routes/a._index.b.tsx"]

/-- The `RouteInfo` the pipeline derives for `routes/a._index.tsx`. -/
def c1InfoIndex : RouteInfo :=
  { id := "a._index", path := some "/a", file := "routes/a._index.tsx",
    name := "a/_index", segments := ["a", "_index"], index := true,
    parentId := none }

/-- The `RouteInfo` the pipeline derives for `routes/a._index.b.tsx`: its
parent resolves to the index route `a._index`. -/
def c1InfoChild : RouteInfo :=
  { id := "a._index.b", path := some "/a/b", file := "routes/a._index.b.tsx",
    name := "a/_index/b", segments := ["a", "_index", "b"], index := false,
    parentId := some "a._index" }

/-- The route map of the index-with-child scenario. -/
def c1Rm : List (String × RouteInfo) :=
  [("a._index", c1InfoIndex), ("a._index.b", c1InfoChild)]

/-- The `RouteInfo` the pipeline derives for `routes/users.tsx`. -/
def c2UsersInfo : RouteInfo :=
  { id := "users", path := some "/users", file := "routes/users.tsx",
    name := "users", segments := ["users"], index := false, parentId := none }

/-- The `RouteInfo` the pipeline derives for `routes/users._index.tsx`:
same URL path `/users` as `users`, but an index route. -/
def c2UsersIndexInfo : RouteInfo :=
  { id := "users._index", path := some "/users", file := "routes/users._index.tsx",
    name := "users/_index", segments := ["users", "_index"], index := true,
    parentId := some "users" }

/-- The flat route list of the users scenario. -/
def c2Routes : List RouteInfo := [c2UsersInfo, c2UsersIndexInfo]

/-- The route map of the users scenario. -/
def c2Rm : List (String × RouteInfo) :=
  [("users", c2UsersInfo), ("users._index", c2UsersIndexInfo)]

/-- The manifest the users scenario emits. -/
def c2Em : List ManifestRoute :=
  [{ id := "routes/users", path := "users", file := "routes/users.tsx", index := false },
   { id := "routes/users._index", path := "", file := "routes/users._index.tsx",
     index := true }]

/-- The final uniqueness-key table of the users scenario. -/
def c2Uniq : UniqMap := [("/users", "users"), ("/users?index", "users._index")]

/-- A route named `a/b/c/d`, itself unregistered in the name map. -/
def c8Route : RouteInfo :=
  { id := "a.b.c.d", path := some "/a/b/c/d", file := "", name := "a/b/c/d",
    segments := ["a", "b", "c", "d"], index := false, parentId := none }

/-- A name map with `a`, `a/b` and `a/b/c` registered (ids deliberately
distinct from the names). -/
def c8NameMap : List (String × RouteInfo) :=
  [("a", { id := "idA", path := some "/a", file := "", name := "a",
           segments := ["a"], index := false, parentId := none }),
   ("a/b", { id := "idB", path := some "/a/b", file := "", name := "a/b",
             segments := ["a", "b"], index := false, parentId := none }),
   ("a/b/c", { id := "idC", path := some "/a/b/c", file := "", name := "a/b/c",
               segments := ["a", "b", "c"], index := false, parentId := none })]

theorem strData_append (s t : String) : (s ++ t).data = s.data ++ t.data := by
  cases s; cases t; rfl

theorem strMk_data (s : String) : String.mk s.data = s := rfl

theorem strEq_empty_iff (s : String) : s = "" ↔ s.data = [] := by
  constructor
  · intro h; rw [h]
  · intro h
    cases s with
    | mk l => simp only at h; rw [show ("" : String) = String.mk [] from rfl, h]

theorem strEmpty_append (s : String) : "" ++ s = s := by
  cases s; rfl

theorem strAppend_empty (s : String) : s ++ "" = s := by
  cases s with
  | mk l =>
    show String.mk (l ++ []) = String.mk l
    rw [List.append_nil]

theorem pathFoldl_shift (l : List String) (acc : String) :
    l.foldl (fun a s => a ++ "/" ++ s) acc =
      acc ++ l.foldl (fun a s => a ++ "/" ++ s) "" := by
  induction l generalizing acc with
  | nil => simp [List.foldl, strAppend_empty]
  | cons s rest ih =>
    simp only [List.foldl]
    rw [ih (acc ++ "/" ++ s), ih ("" ++ "/" ++ s)]
    simp [String.append_assoc, strEmpty_append]

theorem createRoutePathLoop_eq (segs : List String) (result : String) :
    createRoutePathLoop segs result =
      result ++ ((segs.filter (fun s => !(strStartsWithUnderscore s))).map
        (fun s => if strEndsWithUnderscore s then String.mk s.data.dropLast else s)).foldl
        (fun a s => a ++ "/" ++ s) "" := by
  induction segs generalizing result with
  | nil => simp [createRoutePathLoop, strAppend_empty]
  | cons s rest ih =>
    by_cases h : strStartsWithUnderscore s
    · simp [createRoutePathLoop, h, ih]
    · simp only [Bool.not_eq_true] at h
      simp only [createRoutePathLoop, h, List.filter_cons, Bool.not_false, if_false,
        Bool.false_eq_true, List.map_cons, List.foldl_cons, if_true]
      rw [ih]
      rw [pathFoldl_shift _ ("" ++ "/" ++ _)]
      simp [String.append_assoc, strEmpty_append]

theorem specKept_false (segs : List String) :
    specCreateRoutePathKept segs false =
      (segs.filter (fun s => !(strStartsWithUnderscore s))).map
        (fun s => if strEndsWithUnderscore s then String.mk s.data.dropLast else s) := by
  simp [specCreateRoutePathKept]

theorem specKept_shift (segs : List String) (isIndex : Bool) :
    specCreateRoutePathKept segs isIndex =
      specCreateRoutePathKept (if isIndex then segs.dropLast else segs) false := by
  cases isIndex <;> simp [specCreateRoutePathKept]

theorem pathFoldl_ne_empty (k : String) (ks : List String) :
    (k :: ks).foldl (fun a s => a ++ "/" ++ s) "" ≠ "" := by
  intro h
  rw [List.foldl, pathFoldl_shift] at h
  have hd := congrArg String.data h
  rw [strData_append, strData_append, strData_append] at hd
  simp at hd

theorem createRoutePath_eq_spec (segs : List String) (isIndex : Bool) :
    createRoutePath segs isIndex = specCreateRoutePath segs isIndex := by
  simp only [createRoutePath, specCreateRoutePath]
  rw [specKept_shift, specKept_false, createRoutePathLoop_eq, strEmpty_append]
  cases hk : (((if isIndex = true then segs.dropLast else segs).filter
      (fun s => !(strStartsWithUnderscore s))).map
        (fun s => if strEndsWithUnderscore s then String.mk s.data.dropLast else s)) with
  | nil => simp
  | cons k ks =>
    have hne := pathFoldl_ne_empty k ks
    simp only [List.foldl_cons, strEmpty_append] at hne
    simp [hne]

theorem pushSeg_isOk (rid : String) (acc : List String) (seg raw : List Char) :
    (pushSeg rid acc seg raw).isOk = true ↔ (seg = [] ∨ hasBadRawChar raw = false) := by
  unfold pushSeg hasBadRawChar
  split_ifs with h1 h2 h3 h4 <;> simp_all [Except.isOk, Except.toBool]

theorem pushSeg_isOk_iff_pairs (rid : String) (acc : List String) (seg raw : List Char) :
    (pushSeg rid acc seg raw).isOk = true ↔
      ∀ p ∈ (if seg = [] then ([] : List (List Char × List Char)) else [(seg, raw)]),
        hasBadRawChar p.2 = false := by
  rw [pushSeg_isOk]
  by_cases h : seg = [] <;> simp [h]

theorem tokGo_isOk_iff (rid : String) (cs : List Char) :
    ∀ (st : TokState) (seg raw : List Char) (acc : List String),
    (tokGo rid acc seg raw st cs).isOk = true ↔
      ∀ p ∈ collectGo seg raw st cs, hasBadRawChar p.2 = false := by
  induction cs with
  | nil =>
    intro st seg raw acc
    cases st <;> simpa [tokGo, collectGo] using pushSeg_isOk_iff_pairs rid acc seg raw
  | cons c cs ih =>
    intro st seg raw acc
    cases st with
    | NORMAL =>
      by_cases hsep : isSegmentSeparator c
      · simp only [tokGo, collectGo, hsep, if_true]
        have hhead := pushSeg_isOk_iff_pairs rid acc seg raw
        cases hp : pushSeg rid acc seg raw with
        | error e =>
          rw [hp] at hhead
          show (Except.error e : Except String (List String)).isOk = true ↔ _
          constructor
          · intro h; exact absurd h (by simp [Except.isOk, Except.toBool])
          · intro hall
            exact absurd (hhead.mpr (fun p hm => hall p (List.mem_append_left _ hm)))
              (by simp [Except.isOk, Except.toBool])
        | ok acc1 =>
          rw [hp] at hhead
          replace hhead := hhead.mp rfl
          show (tokGo rid acc1 [] [] .NORMAL cs).isOk = true ↔ _
          rw [ih .NORMAL [] [] acc1]
          constructor
          · intro hrest p hmem
            rcases List.mem_append.mp hmem with h | h
            · exact hhead p h
            · exact hrest p h
          · intro hall p hmem
            exact hall p (List.mem_append_right _ hmem)
      · simp only [tokGo, collectGo]
        rw [if_neg hsep, if_neg hsep]
        split_ifs <;> apply ih
    | ESCAPE =>
      simp only [tokGo, collectGo]
      split_ifs <;> apply ih
    | OPTIONAL =>
      simp only [tokGo, collectGo]
      split_ifs <;> apply ih
    | OPTIONAL_ESCAPE =>
      simp only [tokGo, collectGo]
      split_ifs <;> apply ih

theorem pushSeg_shape (rid : String) (acc : List String) (seg raw : List Char) :
    (∃ l, pushSeg rid acc seg raw = .ok l) ∨
      ∃ t c, pushSeg rid acc seg raw = .error (nsMsg rid t c) ∧
        (c = "*" ∨ c = ":" ∨ c = "/") := by
  unfold pushSeg
  split_ifs with h1 h2 h3 h4
  · exact Or.inl ⟨acc, rfl⟩
  · exact Or.inr ⟨String.mk raw, "*", rfl, Or.inl rfl⟩
  · exact Or.inr ⟨String.mk raw, ":", rfl, Or.inr (Or.inl rfl)⟩
  · exact Or.inr ⟨String.mk seg, "/", rfl, Or.inr (Or.inr rfl)⟩
  · exact Or.inl ⟨_, rfl⟩

theorem tokGo_shape (rid : String) (cs : List Char) :
    ∀ (st : TokState) (seg raw : List Char) (acc : List String),
    (∃ l, tokGo rid acc seg raw st cs = .ok l) ∨
      ∃ t c, tokGo rid acc seg raw st cs = .error (nsMsg rid t c) ∧
        (c = "*" ∨ c = ":" ∨ c = "/") := by
  induction cs with
  | nil =>
    intro st seg raw acc
    cases st <;> exact pushSeg_shape rid acc seg raw
  | cons c cs ih =>
    intro st seg raw acc
    cases st with
    | NORMAL =>
      by_cases hsep : isSegmentSeparator c
      · simp only [tokGo, hsep, if_true]
        cases hp : pushSeg rid acc seg raw with
        | error e =>
          have hsh := pushSeg_shape rid acc seg raw
          rw [hp] at hsh
          rcases hsh with ⟨l, hl⟩ | ⟨t, ch, hmsg, hch⟩
          · exact absurd hl (by simp)
          · exact Or.inr ⟨t, ch, hmsg, hch⟩
        | ok acc1 =>
          exact ih .NORMAL [] [] acc1
      · simp only [tokGo]
        rw [if_neg hsep]
        split_ifs <;> apply ih
    | ESCAPE =>
      simp only [tokGo]
      split_ifs <;> apply ih
    | OPTIONAL =>
      simp only [tokGo]
      split_ifs <;> apply ih
    | OPTIONAL_ESCAPE =>
      simp only [tokGo]
      split_ifs <;> apply ih

/-- C3 counterexample: `isIndexRoute("routes/_index")` is `false`, not
`true` — the id contains a separator, so it is matched against
`indexRouteRegex`, whose lead-in requires `.`, `+/`, start of string, or a
`/_index/` folder component, none of which `routes/_index` has. -/
theorem c3_counterexample : isIndexRoute "routes/_index" = false := by decide

/-- C3 (amended): `isIndexRoute("routes/_index")` returns `false` and
`isIndexRoute("routes/about")` returns `false`; the prefix-stripped id
`"_index"` that the pipeline actually passes returns `true`. -/
theorem c3_index_route_detection :
    isIndexRoute "routes/_index" = false ∧
      isIndexRoute "routes/about" = false ∧
      isIndexRoute "_index" = true := by decide

/-- C4 counterexample: a reserved character written between the escape
delimiters `[` and `]` still makes `getRouteSegments` fail — the raw
segment records escaped characters and the reserved-character check runs
on the raw text. -/
theorem c4_counterexample :
    getRouteSegments "[*]" = .error (nsMsg "[*]" "*" "*") := by decide

/-- C4 (amended): `getRouteSegments` throws the unsupported-segment
character error if and only if some emitted (nonempty) segment's raw text
contains `*`, `:` or `/`, where the raw text includes characters written
between the escape delimiters, so escaping does not exempt reserved
characters. -/
theorem c4_segment_error_iff (routeId : String) :
    (getRouteSegments routeId).isOk = true ↔
      ∀ p ∈ rawEmittedSegments routeId, hasBadRawChar p.2 = false := by
  unfold getRouteSegments rawEmittedSegments
  exact tokGo_isOk_iff (stripFolderMarker routeId) (stripFolderMarker routeId).data
    .NORMAL [] [] []

/-- C4 witness: the characterization applied at the escaped-star input. -/
theorem c4_witness :
    ((getRouteSegments "[*]").isOk = true ↔
      ∀ p ∈ rawEmittedSegments "[*]", hasBadRawChar p.2 = false) :=
  c4_segment_error_iff "[*]"

/-- C6 counterexample: `createRoutePath(["users","$id"], false)` does not
return `/users/:id`. -/
theorem c6_counterexample :
    ¬ createRoutePath ["users", "$id"] false = some "/users/:id" := by decide

/-- C6 (amended): `createRoutePath(["users","$id"], false)` returns
`/users/$id` — the `$` to `:` rewrite happens earlier, in
`getRouteSegments`, which maps `users.$id` to segments `["users", ":id"]`,
and on those normalized segments `createRoutePath` returns `/users/:id`. -/
theorem c6_create_route_path_param :
    createRoutePath ["users", "$id"] false = some "/users/$id" ∧
      createRoutePath ["users", ":id"] false = some "/users/:id" ∧
      getRouteSegments "users.$id" = .ok ["users", ":id"] := by decide

/-- C7: `createRoutePath` drops the last segment when the index flag is
true, skips every segment starting with `_`, strips a single trailing `_`,
prefixes each remaining segment with `/` concatenating in order, and
returns nothing when no segments remain; in particular
`createRoutePath(["_auth","login"], false)` is `/login`. -/
theorem c7_create_route_path :
    (∀ (segs : List String) (isIndex : Bool),
        createRoutePath segs isIndex = specCreateRoutePath segs isIndex) ∧
      createRoutePath ["_auth", "login"] false = some "/login" :=
  ⟨createRoutePath_eq_spec, by decide⟩

/-- C9: reaching end-of-input in the ESCAPE, OPTIONAL or OPTIONAL_ESCAPE
state raises no unterminated-syntax error — the only possible failure of
`getRouteSegments` is the reserved-character error — and the terminal
segment accumulated so far is flushed as a final segment even without a
trailing separator, with an empty terminal segment contributing nothing. -/
theorem c9_no_unterminated_error :
    (∀ routeId : String,
        (∃ l, getRouteSegments routeId = .ok l) ∨
          ∃ t c, getRouteSegments routeId =
              .error (nsMsg (stripFolderMarker routeId) t c) ∧
            (c = "*" ∨ c = ":" ∨ c = "/")) ∧
      getRouteSegments "[abc" = .ok ["abc"] ∧
      getRouteSegments "(abc" = .ok ["abc"] ∧
      getRouteSegments "(a[bc" = .ok ["abc"] ∧
      getRouteSegments "(" = .ok [] := by
  refine ⟨fun routeId => ?_, by decide, by decide, by decide, by decide⟩
  unfold getRouteSegments
  exact tokGo_shape (stripFolderMarker routeId) (stripFolderMarker routeId).data
    .NORMAL [] [] []

theorem plainChar_iff (c : Char) : plainChar c = true ↔
    c ≠ '/' ∧ c ≠ '.' ∧ c ≠ '\\' ∧ c ≠ '[' ∧ c ≠ ']' ∧ c ≠ '(' ∧ c ≠ ')' ∧
      c ≠ '$' ∧ c ≠ '*' ∧ c ≠ ':' := by
  unfold plainChar
  simp [and_assoc]

theorem hasBad_iff_mem (l : List Char) :
    hasBadRawChar l = false ↔ ('*' ∉ l ∧ ':' ∉ l ∧ '/' ∉ l) := by
  unfold hasBadRawChar
  simp [and_assoc]

theorem plain_no_bad (cs : List Char) (h : ∀ c ∈ cs, plainChar c = true) :
    hasBadRawChar cs = false := by
  rw [hasBad_iff_mem]
  refine ⟨fun hm => ?_, fun hm => ?_, fun hm => ?_⟩ <;>
    [have := (plainChar_iff _).mp (h _ hm);
     have := (plainChar_iff _).mp (h _ hm);
     have := (plainChar_iff _).mp (h _ hm)] <;> simp at this

theorem hasBad_append_single (raw : List Char) (c : Char)
    (hraw : hasBadRawChar raw = false)
    (h8 : c ≠ '*') (h9 : c ≠ ':') (h10 : c ≠ '/') :
    hasBadRawChar (raw ++ [c]) = false := by
  rw [hasBad_iff_mem] at hraw ⊢
  simp [List.mem_append, hraw.1, hraw.2.1, hraw.2.2, h8, h9, h10, Ne.symm]

theorem tokGo_plain_normal (rid : String) (cs : List Char) :
    ∀ (seg raw : List Char) (acc : List String),
      (∀ c ∈ cs, plainChar c = true) → seg ≠ [] → hasBadRawChar raw = false →
      tokGo rid acc seg raw .NORMAL cs = .ok (acc ++ [String.mk (seg ++ cs)]) := by
  induction cs with
  | nil =>
    intro seg raw acc hplain hseg hraw
    rw [hasBad_iff_mem] at hraw
    simp only [tokGo, List.append_nil]
    unfold pushSeg
    rw [if_neg hseg]
    rw [if_neg (by simp [hraw.1]), if_neg (by simp [hraw.2.1]),
      if_neg (by simp [hraw.2.2])]
  | cons c cs ih =>
    intro seg raw acc hplain hseg hraw
    obtain ⟨h1, h2, h3, h4, h5, h6, h7, h8, h9, h10⟩ :=
      (plainChar_iff c).mp (hplain c (List.mem_cons_self c cs))
    have hplain' : ∀ x ∈ cs, plainChar x = true :=
      fun x hx => hplain x (List.mem_cons_of_mem c hx)
    have hstep : tokGo rid acc seg raw .NORMAL (c :: cs) =
        tokGo rid acc (seg ++ [c]) (raw ++ [c]) .NORMAL cs := by
      simp [tokGo, isSegmentSeparator, escapeStart, optionalStart, paramPrefixChar,
        h1, h2, h3, h4, h6, h8]
    rw [hstep, ih (seg ++ [c]) (raw ++ [c]) acc hplain' (by simp)
      (hasBad_append_single raw c hraw h9 h10 h1)]
    simp

theorem tokGo_plain_optional (rid : String) (cs : List Char) :
    ∀ (ds seg raw : List Char) (acc : List String),
      (∀ c ∈ cs, plainChar c = true) →
      tokGo rid acc seg raw .OPTIONAL (cs ++ ds) =
        tokGo rid acc (seg ++ cs) (raw ++ cs) .OPTIONAL ds := by
  induction cs with
  | nil => intro ds seg raw acc _; simp
  | cons c cs ih =>
    intro ds seg raw acc hplain
    obtain ⟨h1, h2, h3, h4, h5, h6, h7, h8, h9, h10⟩ :=
      (plainChar_iff c).mp (hplain c (List.mem_cons_self c cs))
    have hplain' : ∀ x ∈ cs, plainChar x = true :=
      fun x hx => hplain x (List.mem_cons_of_mem c hx)
    have hstep : tokGo rid acc seg raw .OPTIONAL (c :: (cs ++ ds)) =
        tokGo rid acc (seg ++ [c]) (raw ++ [c]) .OPTIONAL (cs ++ ds) := by
      simp [tokGo, optionalEnd, escapeStart, paramPrefixChar, h4, h7, h8]
    rw [List.cons_append, hstep, ih ds (seg ++ [c]) (raw ++ [c]) acc hplain']
    simp

theorem plain_noFolder (cs : List Char) (h : ∀ c ∈ cs, plainChar c = true) :
    cs.any (fun c => c = '/' || c = '\\') = false := by
  cases hany : cs.any (fun c => c = '/' || c = '\\') with
  | false => rfl
  | true =>
    rw [List.any_eq_true] at hany
    obtain ⟨c, hc, hcc⟩ := hany
    obtain ⟨h1, _, h3, _⟩ := (plainChar_iff c).mp (h c hc)
    simp [h1, h3] at hcc

theorem stripFolderMarker_noop (s : String)
    (h : s.data.any (fun c => c = '/' || c = '\\') = false) :
    stripFolderMarker s = s := by
  unfold stripFolderMarker
  rw [h]
  simp

/-- C5: when the param prefix character `$` is read at the start of a
fresh segment in the NORMAL or OPTIONAL state, the segment becomes the
catch-all marker `*` if the `$` is the final character of the whole route
id, and otherwise becomes `:` with the following characters appended as
the parameter name; a `$` that is not at the start of a segment is kept
literally. -/
theorem c5_param_prefix_rewrite :
    (∀ cs : List Char, cs ≠ [] → (∀ c ∈ cs, plainChar c = true) →
        getRouteSegments (String.mk ('$' :: cs)) = .ok [String.mk (':' :: cs)]) ∧
      getRouteSegments "$" = .ok ["*"] ∧
      (∀ cs : List Char, (∀ c ∈ cs, plainChar c = true) →
        getRouteSegments (String.mk ('(' :: '$' :: (cs ++ [')']))) =
          .ok [String.mk (':' :: (cs ++ ['?']))]) ∧
      getRouteSegments "($" = .ok ["*"] ∧
      (∀ cs : List Char, (∀ c ∈ cs, plainChar c = true) →
        getRouteSegments (String.mk ('a' :: '$' :: cs)) =
          .ok [String.mk ('a' :: '$' :: cs)]) := by
  refine ⟨fun cs hne hplain => ?_, by decide, fun cs hplain => ?_, by decide,
    fun cs hplain => ?_⟩
  · unfold getRouteSegments
    rw [stripFolderMarker_noop _ (by simp [List.any_cons, plain_noFolder cs hplain])]
    have hstep : tokGo (String.mk ('$' :: cs)) [] [] [] .NORMAL ('$' :: cs) =
        tokGo (String.mk ('$' :: cs)) [] [':'] ['$'] .NORMAL cs := by
      simp [tokGo, isSegmentSeparator, escapeStart, optionalStart, paramPrefixChar, hne]
    show tokGo (String.mk ('$' :: cs)) [] [] [] .NORMAL ('$' :: cs) = _
    rw [hstep, tokGo_plain_normal _ cs [':'] ['$'] [] hplain (by simp)
      (by rw [hasBad_iff_mem]; simp)]
    simp
  · unfold getRouteSegments
    rw [stripFolderMarker_noop _
      (by simp [List.any_cons, List.any_append, plain_noFolder cs hplain])]
    have hstep1 : tokGo (String.mk ('(' :: '$' :: (cs ++ [')']))) [] [] [] .NORMAL
        ('(' :: '$' :: (cs ++ [')'])) =
        tokGo (String.mk ('(' :: '$' :: (cs ++ [')']))) [] [] [] .OPTIONAL
          ('$' :: (cs ++ [')'])) := by
      simp [tokGo, isSegmentSeparator, escapeStart, optionalStart]
    have hstep2 : tokGo (String.mk ('(' :: '$' :: (cs ++ [')']))) [] [] [] .OPTIONAL
        ('$' :: (cs ++ [')'])) =
        tokGo (String.mk ('(' :: '$' :: (cs ++ [')']))) [] [':'] ['$'] .OPTIONAL
          (cs ++ [')']) := by
      simp [tokGo, optionalEnd, escapeStart, paramPrefixChar]
    show tokGo (String.mk ('(' :: '$' :: (cs ++ [')']))) [] [] [] .NORMAL
        ('(' :: '$' :: (cs ++ [')'])) = _
    rw [hstep1, hstep2, tokGo_plain_optional _ cs [')'] [':'] ['$'] [] hplain]
    have hstep3 : tokGo (String.mk ('(' :: '$' :: (cs ++ [')']))) []
        ([':'] ++ cs) (['$'] ++ cs) .OPTIONAL [')'] =
        tokGo (String.mk ('(' :: '$' :: (cs ++ [')']))) []
          (([':'] ++ cs) ++ ['?']) ((['$'] ++ cs) ++ ['?']) .NORMAL [] := by
      simp [tokGo, optionalEnd]
    rw [hstep3]
    show pushSeg _ [] (([':'] ++ cs) ++ ['?']) ((['$'] ++ cs) ++ ['?']) = _
    unfold pushSeg
    rw [if_neg (by simp)]
    have hpb := plain_no_bad cs hplain
    rw [hasBad_iff_mem] at hpb
    rw [if_neg (by simp [List.mem_append, hpb.1]),
      if_neg (by simp [List.mem_append, hpb.2.1]),
      if_neg (by simp [List.mem_append, hpb.2.2])]
    simp
  · unfold getRouteSegments
    rw [stripFolderMarker_noop _ (by simp [List.any_cons, plain_noFolder cs hplain])]
    have hstep1 : tokGo (String.mk ('a' :: '$' :: cs)) [] [] [] .NORMAL
        ('a' :: '$' :: cs) =
        tokGo (String.mk ('a' :: '$' :: cs)) [] ['a'] ['a'] .NORMAL ('$' :: cs) := by
      simp [tokGo, isSegmentSeparator, escapeStart, optionalStart, paramPrefixChar]
    have hstep2 : tokGo (String.mk ('a' :: '$' :: cs)) [] ['a'] ['a'] .NORMAL
        ('$' :: cs) =
        tokGo (String.mk ('a' :: '$' :: cs)) [] ['a', '$'] ['a', '$'] .NORMAL cs := by
      simp [tokGo, isSegmentSeparator, escapeStart, optionalStart, paramPrefixChar]
    show tokGo (String.mk ('a' :: '$' :: cs)) [] [] [] .NORMAL ('a' :: '$' :: cs) = _
    rw [hstep1, hstep2, tokGo_plain_normal _ cs ['a', '$'] ['a', '$'] [] hplain
      (by simp) (by rw [hasBad_iff_mem]; simp)]
    simp

/-- C5 witness: the rewrite rules applied at the concrete inputs `$lang`
(named parameter) and `a$b` (literal mid-segment dollar). -/
theorem c5_witness :
    ("lang".data ≠ [] ∧ (∀ c ∈ "lang".data, plainChar c = true)) ∧
      getRouteSegments (String.mk ('$' :: "lang".data)) =
        .ok [String.mk (':' :: "lang".data)] ∧
      getRouteSegments (String.mk ('a' :: '$' :: "b".data)) =
        .ok [String.mk ('a' :: '$' :: "b".data)] :=
  ⟨⟨by decide, by decide⟩,
    c5_param_prefix_rewrite.1 "lang".data (by decide) (by decide),
    c5_param_prefix_rewrite.2.2.2.2 "b".data (by decide)⟩

theorem strJoinSlash_append_singleton (segs : List String) (last : String)
    (h : segs ≠ []) :
    strJoinSlash (segs ++ [last]) = strJoinSlash segs ++ "/" ++ last := by
  induction segs with
  | nil => exact absurd rfl h
  | cons s ss ih =>
    cases ss with
    | nil => simp [strJoinSlash, strEmpty_append, String.append_assoc]
    | cons t rest =>
      have hne : t :: rest ≠ [] := by simp
      show s ++ "/" ++ strJoinSlash ((t :: rest) ++ [last]) =
        strJoinSlash (s :: t :: rest) ++ "/" ++ last
      rw [ih hne]
      show _ = (s ++ "/" ++ strJoinSlash (t :: rest)) ++ "/" ++ last
      simp [String.append_assoc]

theorem strJoinSlash_ne_empty (segs : List String)
    (h : ∀ s ∈ segs, s.data ≠ []) (hne : segs ≠ []) :
    strJoinSlash segs ≠ "" := by
  cases segs with
  | nil => exact absurd rfl hne
  | cons s ss =>
    cases ss with
    | nil =>
      intro hc
      exact h s (by simp) ((strEq_empty_iff s).mp hc)
    | cons t rest =>
      intro hc
      rw [strEq_empty_iff] at hc
      rw [show strJoinSlash (s :: t :: rest) = s ++ "/" ++ strJoinSlash (t :: rest)
        from rfl] at hc
      rw [strData_append, strData_append] at hc
      simp at hc

theorem truncAtLastSlash_join (segs : List String) (last : String)
    (hlast : ∀ c ∈ last.data, ¬(c = '/')) :
    truncAtLastSlash (strJoinSlash (segs ++ [last])) = strJoinSlash segs := by
  cases segs with
  | nil =>
    show truncAtLastSlash (strJoinSlash [last]) = ""
    unfold truncAtLastSlash
    have hdrop : last.data.reverse.dropWhile (fun c => !(c == '/')) = [] := by
      rw [List.dropWhile_eq_nil_iff]
      intro c hc
      simp [hlast c (List.mem_reverse.mp hc)]
    rw [show strJoinSlash [last] = last from rfl, hdrop]
  | cons s ss =>
    rw [strJoinSlash_append_singleton (s :: ss) last (by simp)]
    unfold truncAtLastSlash
    have hdata : ((strJoinSlash (s :: ss) ++ "/" ++ last)).data =
        (strJoinSlash (s :: ss)).data ++ ['/'] ++ last.data := by
      rw [strData_append, strData_append]
    rw [hdata]
    have hdropLast : last.data.reverse.dropWhile (fun c => !(c == '/')) = [] := by
      rw [List.dropWhile_eq_nil_iff]
      intro c hc
      simp [hlast c (List.mem_reverse.mp hc)]
    rw [List.reverse_append, List.reverse_append]
    rw [List.dropWhile_append, hdropLast]
    simp

theorem mem_contains_true {l : List Char} {c : Char} (hm : c ∈ l) :
    l.contains c = true := by simpa using hm

theorem strJoinSlash_append_length (segs : List String) (last : String)
    (hlast : last.data ≠ []) :
    (strJoinSlash segs).data.length + 1 ≤
      (strJoinSlash (segs ++ [last])).data.length := by
  cases segs with
  | nil =>
    have hpos : 0 < last.data.length := List.length_pos.mpr hlast
    show (strJoinSlash []).data.length + 1 ≤ (strJoinSlash [last]).data.length
    simpa [strJoinSlash] using hpos
  | cons s ss =>
    rw [strJoinSlash_append_singleton (s :: ss) last (by simp)]
    rw [strData_append, strData_append]
    simp [List.length_append]

theorem findParentAux_spec (nameMap : List (String × RouteInfo)) :
    ∀ (segs : List String),
      (∀ s ∈ segs, s.data ≠ [] ∧ s.data.contains '/' = false) →
      ∀ fuel, (strJoinSlash segs).data.length < fuel →
      findParentAux nameMap fuel (strJoinSlash segs) =
        specAncestorRev nameMap segs.reverse := by
  intro segs
  induction segs using List.reverseRecOn with
  | nil =>
    intro _ fuel hfuel
    cases fuel with
    | zero => omega
    | succ f => simp [strJoinSlash, findParentAux, specAncestorRev]
  | append_singleton init last ih =>
    intro hwf fuel hfuel
    have hlastwf := hwf last (by simp)
    have hlastslash : ∀ c ∈ last.data, ¬(c = '/') := by
      intro c hc hcc
      subst hcc
      rw [mem_contains_true hc] at hlastwf
      exact absurd hlastwf.2 (by simp)
    cases fuel with
    | zero => omega
    | succ f =>
      have hne : strJoinSlash (init ++ [last]) ≠ "" :=
        strJoinSlash_ne_empty _ (fun s hs => (hwf s hs).1) (by simp)
      show findParentAux nameMap (f + 1) (strJoinSlash (init ++ [last])) = _
      unfold findParentAux
      rw [if_neg hne]
      have hrev : (init ++ [last]).reverse = last :: init.reverse := by simp
      rw [hrev]
      simp only [specAncestorRev]
      have hkey : (last :: init.reverse).reverse = init ++ [last] := by simp
      rw [hkey]
      cases hlook : List.lookup (strJoinSlash (init ++ [last])) nameMap with
      | some p => simp [hlook]
      | none =>
        simp only [hlook]
        rw [truncAtLastSlash_join init last hlastslash]
        exact ih (fun s hs => hwf s (by simp [hs])) f (by
          have := strJoinSlash_append_length init last hlastwf.1
          omega)

/-- C8: for every route, parent resolution returns the id registered under
the longest proper prefix of its name, truncating at `/` boundaries and
stopping at the first name-map hit, and leaves the parent unresolved when
no prefix matches; in particular with names `a`, `a/b`, `a/b/c` registered,
a route with segments `a/b/c/d` (itself unregistered) resolves its parent
to the route registered under `a/b/c` (id `idC`), not the one under `a`
(id `idA`). -/
theorem c8_parent_resolution :
    (∀ (info : RouteInfo) (nameMap : List (String × RouteInfo)),
        (∀ s ∈ info.segments, s.data ≠ [] ∧ s.data.contains '/' = false) →
        findParentRouteId info nameMap =
          specAncestor nameMap info.segments.dropLast) ∧
      findParentRouteId c8Route c8NameMap = some "idC" ∧
      findParentRouteId c8Route c8NameMap ≠ some "idA" := by
  refine ⟨fun info nameMap hwf => ?_, by decide, by decide⟩
  unfold findParentRouteId parentNameOf specAncestor
  exact findParentAux_spec nameMap info.segments.dropLast
    (fun s hs => hwf s ((List.dropLast_sublist info.segments).subset hs))
    _ (Nat.lt_succ_self _)

/-- C8 witness: the characterization applied at the `a/b/c/d` route and
the three-name map. -/
theorem c8_witness :
    (∀ s ∈ c8Route.segments, s.data ≠ [] ∧ s.data.contains '/' = false) ∧
      findParentRouteId c8Route c8NameMap =
        specAncestor c8NameMap c8Route.segments.dropLast :=
  ⟨by decide, c8_parent_resolution.1 c8Route c8NameMap (by decide)⟩

theorem strData_inj {a b : String} (h : a.data = b.data) : a = b := by
  cases a; cases b; exact congrArg String.mk h

theorem posixJoin_inj (p : String) (a b : String)
    (h : posixJoin p a = posixJoin p b) : a = b := by
  have hd := congrArg String.data h
  unfold posixJoin at hd
  rw [strData_append, strData_append, strData_append, strData_append] at hd
  exact strData_inj (List.append_cancel_left hd)

theorem nodup_ids_eq {routes : List RouteInfo}
    (h : (routes.map RouteInfo.id).Nodup) {r s : RouteInfo}
    (hr : r ∈ routes) (hs : s ∈ routes) (hid : r.id = s.id) : r = s :=
  List.inj_on_of_nodup_map h hr hs hid

theorem lookup_none_not_mem {β : Type} {l : List (String × β)} {k : String}
    (h : List.lookup k l = none) : ∀ v, (k, v) ∉ l := by
  induction l with
  | nil => simp
  | cons e es ih =>
    intro v hv
    cases e with
    | mk k1 v1 =>
      by_cases hkk : k = k1
      · subst hkk
        simp [List.lookup] at h
      · have hbe : (k == k1) = false := beq_eq_false_iff_ne.mpr hkk
        rw [List.lookup, hbe] at h
        rcases List.mem_cons.mp hv with heq | hmem
        · exact hkk (congrArg Prod.fst heq)
        · exact ih h v hmem

theorem nodup_keys_append {l : List (String × String)}
    (h : (l.map Prod.fst).Nodup) (k : String)
    (hk : List.lookup k l = none) (v : String) :
    ((l ++ [(k, v)]).map Prod.fst).Nodup := by
  rw [List.map_append]
  have hnotin : k ∉ l.map Prod.fst := by
    intro hmem
    rw [List.mem_map] at hmem
    obtain ⟨e, he, hee⟩ := hmem
    exact lookup_none_not_mem hk e.2 (by rw [← hee]; exact he)
  simp [List.nodup_append, h, hnotin]

theorem keys_nodup_val_eq {l : List (String × String)}
    (h : (l.map Prod.fst).Nodup) {k a b : String}
    (ha : (k, a) ∈ l) (hb : (k, b) ∈ l) : a = b := by
  induction l with
  | nil => simp at ha
  | cons e es ih =>
    rw [List.map_cons, List.nodup_cons] at h
    rcases List.mem_cons.mp ha with haeq | hamem <;>
      rcases List.mem_cons.mp hb with hbeq | hbmem
    · rw [← haeq] at hbeq
      exact (congrArg Prod.snd hbeq).symm
    · exfalso
      apply h.1
      rw [List.mem_map]
      exact ⟨(k, b), hbmem, by rw [← haeq]⟩
    · exfalso
      apply h.1
      rw [List.mem_map]
      exact ⟨(k, a), hamem, by rw [← hbeq]⟩
    · exact ih h.2 hamem hbmem

theorem registerUnique_facts (uniq : UniqMap) (c : RouteInfo) (uniq1 : UniqMap)
    (hreg : registerUnique uniq c = .ok uniq1) :
    (∀ kv ∈ uniq, kv ∈ uniq1) ∧
      ((uniq.map Prod.fst).Nodup → (uniq1.map Prod.fst).Nodup) ∧
      (uniqueRouteIdOf c ≠ "" → (uniqueRouteIdOf c, c.id) ∈ uniq1) := by
  unfold registerUnique at hreg
  by_cases hkey : uniqueRouteIdOf c = ""
  · rw [if_pos hkey] at hreg
    injection hreg with h
    subst h
    exact ⟨fun kv h => h, id, fun h => absurd hkey h⟩
  · rw [if_neg hkey] at hreg
    cases hlook : List.lookup (uniqueRouteIdOf c) uniq with
    | some conf => rw [hlook] at hreg; cases hreg
    | none =>
      rw [hlook] at hreg
      injection hreg with h
      subst h
      exact ⟨fun kv h => List.mem_append_left _ h,
        fun hnd => nodup_keys_append hnd _ hlook _,
        fun _ => List.mem_append_right _ (by simp)⟩

theorem processChildrenAux_good
    (routes : List RouteInfo) (rm : List (String × RouteInfo)) (pfx : String)
    (f : Option String → UniqMap → Except String (List ManifestRoute × UniqMap))
    (hf : GoodEmitter routes pfx f) (ppath : String) (pid : Option String) :
    ∀ (cs : List RouteInfo) (uniq : UniqMap) (em : List ManifestRoute) (u : UniqMap),
      (∀ c ∈ cs, c ∈ routes ∧ c.parentId = pid) →
      processChildrenAux f rm pfx ppath cs uniq = .ok (em, u) →
      (∀ kv ∈ uniq, kv ∈ u) ∧
      ((uniq.map Prod.fst).Nodup → (u.map Prod.fst).Nodup) ∧
      (∀ e ∈ em, EmittedFrom routes pfx pid u e) := by
  intro cs
  induction cs with
  | nil =>
    intro uniq em u _ hok
    simp only [processChildrenAux, Except.ok.injEq, Prod.mk.injEq] at hok
    obtain ⟨hem, hu⟩ := hok
    subst hem hu
    exact ⟨fun kv h => h, id, by simp⟩
  | cons c cs ih =>
    intro uniq em u hmem hok
    obtain ⟨hcr, hcp⟩ := hmem c (by simp)
    have hmem' : ∀ x ∈ cs, x ∈ routes ∧ x.parentId = pid :=
      fun x hx => hmem x (by simp [hx])
    simp only [processChildrenAux] at hok
    cases hreg : registerUnique uniq c with
    | error e => simp [hreg] at hok
    | ok uniq1 =>
      simp only [hreg] at hok
      obtain ⟨hmono1, hnd1, hkeymem⟩ := registerUnique_facts uniq c uniq1 hreg
      by_cases hidx : c.index = true
      · rw [if_pos hidx] at hok
        rw [if_neg (by simp [objectValuesOfMap])] at hok
        cases hrest : processChildrenAux f rm pfx ppath cs uniq1 with
        | error e => simp [hrest] at hok
        | ok q =>
          obtain ⟨ems, u2⟩ := q
          simp only [hrest, Except.ok.injEq, Prod.mk.injEq] at hok
          obtain ⟨hem, hu⟩ := hok
          subst hem hu
          obtain ⟨hmono2, hnd2, hemit2⟩ := ih uniq1 ems u2 hmem' hrest
          refine ⟨fun kv h => hmono2 _ (hmono1 _ h), fun hnd => hnd2 (hnd1 hnd), ?_⟩
          intro e he
          rcases List.mem_cons.mp he with heq | hein
          · subst heq
            refine ⟨c, hcr, rfl, Or.inl hcp, ?_⟩
            by_cases hkey : uniqueRouteIdOf c = ""
            · exact Or.inl hkey
            · exact Or.inr (hmono2 _ (hkeymem hkey))
          · exact hemit2 e hein
      · rw [if_neg hidx] at hok
        cases hrec : f (some c.id) uniq1 with
        | error e => simp [hrec] at hok
        | ok q =>
          obtain ⟨childEms, u2⟩ := q
          simp only [hrec] at hok
          obtain ⟨hmonoF, hndF, hemitF⟩ := hf (some c.id) uniq1 childEms u2 hrec
          cases hrest : processChildrenAux f rm pfx ppath cs u2 with
          | error e => simp [hrest] at hok
          | ok q2 =>
            obtain ⟨ems, u3⟩ := q2
            simp only [hrest, Except.ok.injEq, Prod.mk.injEq] at hok
            obtain ⟨hem, hu⟩ := hok
            subst hem hu
            obtain ⟨hmono2, hnd2, hemit2⟩ := ih u2 ems u3 hmem' hrest
            have hcindex : c.index = false := by
              revert hidx; cases c.index <;> simp
            refine ⟨fun kv h => hmono2 _ (hmonoF _ (hmono1 _ h)),
              fun hnd => hnd2 (hndF (hnd1 hnd)), ?_⟩
            intro e he
            rcases List.mem_cons.mp he with heq | hein
            · subst heq
              refine ⟨c, hcr, rfl, Or.inl hcp, ?_⟩
              by_cases hkey : uniqueRouteIdOf c = ""
              · exact Or.inl hkey
              · exact Or.inr (hmono2 _ (hmonoF _ (hkeymem hkey)))
            · rcases List.mem_append.mp hein with hc1 | hc2
              · obtain ⟨r, hrR, hrid, hrpar, hrkey⟩ := hemitF e hc1
                refine ⟨r, hrR, hrid, ?_, ?_⟩
                · rcases hrpar with hp | hp
                  · exact Or.inr ⟨c, hcr, hcindex, hp⟩
                  · exact Or.inr hp
                · rcases hrkey with hk | hk
                  · exact Or.inl hk
                  · exact Or.inr (hmono2 _ hk)
              · exact hemit2 e hc2

theorem defineNestedRoutesAux_good (routes : List RouteInfo)
    (rm : List (String × RouteInfo)) (pfx : String) :
    ∀ fuel, GoodEmitter routes pfx (defineNestedRoutesAux routes rm pfx fuel) := by
  intro fuel
  induction fuel with
  | zero =>
    intro pid uniq em u hok
    simp [defineNestedRoutesAux] at hok
  | succ f ih =>
    intro pid uniq em u hok
    simp only [defineNestedRoutesAux] at hok
    exact processChildrenAux_good routes rm pfx _ ih _ pid
      (routes.filter (fun r => r.parentId == pid)) uniq em u
      (fun c hc => ⟨(List.mem_filter.mp hc).1, eq_of_beq (List.mem_filter.mp hc).2⟩)
      hok

theorem assocSet_wf (m : List (String × RouteInfo)) (info : RouteInfo)
    (hnd : (m.map Prod.fst).Nodup) (hid : ∀ e ∈ m, e.1 = e.2.id) :
    ((assocSet m info.id info).map Prod.fst).Nodup ∧
      (∀ e ∈ assocSet m info.id info, e.1 = e.2.id) := by
  unfold assocSet
  by_cases hany : m.any (fun e => e.1 == info.id) = true
  · rw [if_pos hany]
    constructor
    · have hkeys : (m.map (fun e => if e.1 == info.id then (info.id, info) else e)).map
          Prod.fst = m.map Prod.fst := by
        rw [List.map_map]
        apply List.map_congr_left
        intro e _
        by_cases h : (e.1 == info.id) = true
        · simp only [Function.comp, h, if_true]
          exact (eq_of_beq h).symm
        · have h2 : e.1 ≠ info.id := fun hh => h (by rw [hh]; exact beq_self_eq_true _)
          simp [h, h2]
      rw [hkeys]
      exact hnd
    · intro e he
      rw [List.mem_map] at he
      obtain ⟨x, hx, hxe⟩ := he
      by_cases h : (x.1 == info.id) = true
      · rw [← hxe]; simp [h]
      · rw [← hxe]; simp only [h, if_false]; exact hid x hx
  · rw [if_neg hany]
    constructor
    · rw [List.map_append]
      have hnotin : info.id ∉ m.map Prod.fst := by
        intro hmem
        rw [List.mem_map] at hmem
        obtain ⟨e, he, hee⟩ := hmem
        apply hany
        rw [List.any_eq_true]
        exact ⟨e, he, by rw [hee]; exact beq_self_eq_true _⟩
      simp [List.nodup_append, hnd, hnotin]
    · intro e he
      rcases List.mem_append.mp he with h | h
      · exact hid e h
      · simp only [List.mem_singleton] at h
        subst h
        rfl

theorem buildMaps_wf (app pfx : String) :
    ∀ (paths : List String) (rm nm rm' nm' : List (String × RouteInfo)),
      (rm.map Prod.fst).Nodup → (∀ e ∈ rm, e.1 = e.2.id) →
      buildMaps app pfx paths rm nm = .ok (rm', nm') →
      (rm'.map Prod.fst).Nodup ∧ (∀ e ∈ rm', e.1 = e.2.id) := by
  intro paths
  induction paths with
  | nil =>
    intro rm nm rm' nm' hnd hid hok
    simp only [buildMaps, Except.ok.injEq, Prod.mk.injEq] at hok
    obtain ⟨h1, h2⟩ := hok
    subst h1
    exact ⟨hnd, hid⟩
  | cons p ps ih =>
    intro rm nm rm' nm' hnd hid hok
    simp only [buildMaps] at hok
    by_cases hmod : isRouteModuleFile
        (jsSliceFrom p ((posixJoin app pfx).data.length + 1)) = true
    · rw [if_pos hmod] at hok
      cases hinfo : getRouteInfo app pfx p with
      | error e => simp [hinfo] at hok
      | ok info =>
        simp only [hinfo] at hok
        obtain ⟨h1, h2⟩ := assocSet_wf rm info hnd hid
        exact ih _ _ _ _ h1 h2 hok
    · rw [if_neg hmod] at hok
      exact ih _ _ _ _ hnd hid hok

theorem getRouteMap_ids_nodup (app : String) (paths : List String) (pfx : String)
    (rm : List (String × RouteInfo)) (h : getRouteMap app paths pfx = .ok rm) :
    ((rm.map Prod.snd).map RouteInfo.id).Nodup := by
  unfold getRouteMap at h
  cases hb : buildMaps app pfx paths [] [] with
  | error e => simp [hb] at h
  | ok q =>
    obtain ⟨rm0, nm0⟩ := q
    simp only [hb, Except.ok.injEq] at h
    subst h
    obtain ⟨hnd, hid⟩ := buildMaps_wf app pfx paths [] [] rm0 nm0 (by simp) (by simp) hb
    have hkeys : ((rm0.map (fun e =>
        (e.1, { e.2 with parentId := findParentRouteId e.2 nm0 }))).map Prod.snd).map
          RouteInfo.id = rm0.map Prod.fst := by
      rw [List.map_map, List.map_map]
      apply List.map_congr_left
      intro e he
      show ({ e.2 with parentId := findParentRouteId e.2 nm0 }).id = e.1
      rw [hid e he]
    rw [hkeys]
    exact hnd

/-- C1: the code never raises the index-routes-are-leaves error. On the
concrete route set where `a._index` is an index route and `a._index.b`
resolves its parent to it, `flatRoutesUniversal` succeeds and returns a
manifest with only the index route — the child is silently dropped —
because `defineNestedRoutes` computes `invalidChildRoutes` with
`Object.values` applied to the `routeMap` `Map`, which is always empty. -/
theorem c1_dead_index_child_check :
    getRouteMap "app" c1Files "routes" = .ok c1Rm ∧
      c1InfoIndex.index = true ∧
      c1InfoChild.parentId = some c1InfoIndex.id ∧
      flatRoutesUniversal "app" c1Files "routes" =
        .ok [{ id := "routes/a._index", path := "a",
               file := "routes/a._index.tsx", index := true }] :=
  ⟨by decide, by decide, by decide, by decide⟩

/-- C2 counterexample: two distinct routes that both resolve to an absent
path with the same (false) index flag do not conflict — `flatRoutesUniversal`
succeeds and emits both, because their uniqueness key is the empty string
and is never registered. -/
theorem c2_counterexample :
    getRouteMap "app" ["app/routes/_a.tsx", "app/routes/_b.tsx"] "routes" =
      .ok [("_a", { id := "_a", path := none, file := "routes/_a.tsx",
                    name := "_a", segments := ["_a"], index := false,
                    parentId := none }),
           ("_b", { id := "_b", path := none, file := "routes/_b.tsx",
                    name := "_b", segments := ["_b"], index := false,
                    parentId := none })] ∧
      flatRoutesUniversal "app" ["app/routes/_a.tsx", "app/routes/_b.tsx"]
          "routes" =
        .ok [{ id := "routes/_a", path := "", file := "routes/_a.tsx",
               index := false },
             { id := "routes/_b", path := "", file := "routes/_b.tsx",
               index := false }] :=
  ⟨by decide, by decide⟩

/-- C2 (amended): distinct routes emitted by a successful tree assembly
never share a nonempty uniqueness key (path plus index marker); a conflict
on a present path with equal index flags aborts assembly with an error
naming both route ids and the shared path; sharing a path with different
index flags is no conflict; routes with absent path and false index flag
have an empty key and are exempt from conflict checking. -/
theorem c2_conflict_detection :
    (∀ (routes : List RouteInfo) (rm : List (String × RouteInfo)) (pfx : String)
        (fuel : Nat) (em : List ManifestRoute) (u : UniqMap),
        (routes.map RouteInfo.id).Nodup →
        defineNestedRoutesAux routes rm pfx fuel none [] = .ok (em, u) →
        ∀ r s : RouteInfo, r ∈ routes → s ∈ routes → r ≠ s →
          posixJoin pfx r.id ∈ em.map ManifestRoute.id →
          posixJoin pfx s.id ∈ em.map ManifestRoute.id →
          uniqueRouteIdOf r ≠ "" →
          uniqueRouteIdOf r ≠ uniqueRouteIdOf s) ∧
      flatRoutesUniversal "app" ["app/routes/a.tsx", "app/routes/a_.tsx"]
          "routes" =
        .error "Path \"/a\" defined by route \"a_\" conflicts with route \"a\"" ∧
      flatRoutesUniversal "app"
          ["app/routes/users.tsx", "app/routes/users._index.tsx"] "routes" =
        .ok c2Em := by
  refine ⟨?_, by decide, by decide⟩
  intro routes rm pfx fuel em u hids hok r s hr hs hrs hre hse hrkey
  obtain ⟨_, hnd, hemit⟩ :=
    defineNestedRoutesAux_good routes rm pfx fuel none [] em u hok
  have hndu : (u.map Prod.fst).Nodup := hnd (by simp)
  rw [List.mem_map] at hre hse
  obtain ⟨er, her, herid⟩ := hre
  obtain ⟨es, hes, hesid⟩ := hse
  obtain ⟨r', hr'R, hr'id, _, hr'key⟩ := hemit er her
  obtain ⟨s', hs'R, hs'id, _, hs'key⟩ := hemit es hes
  have hr'eq : r' = r :=
    nodup_ids_eq hids hr'R hr (posixJoin_inj pfx _ _ (by rw [← hr'id, herid]))
  have hs'eq : s' = s :=
    nodup_ids_eq hids hs'R hs (posixJoin_inj pfx _ _ (by rw [← hs'id, hesid]))
  rw [hr'eq] at hr'key
  rw [hs'eq] at hs'key
  intro hkeq
  rcases hr'key with hk | hkr
  · exact hrkey hk
  · rcases hs'key with hk | hks
    · rw [hkeq] at hrkey
      exact hrkey hk
    · rw [hkeq] at hkr
      have : r.id = s.id := keys_nodup_val_eq hndu hkr hks
      exact hrs (nodup_ids_eq hids hr hs this)

/-- C2 witness: the general uniqueness statement applied at the users
scenario, where `users` and `users._index` are both emitted with keys
`/users` and `/users?index`. -/
theorem c2_witness :
    ((c2Routes.map RouteInfo.id).Nodup ∧
        defineNestedRoutesAux c2Routes c2Rm "routes" 3 none [] =
          .ok (c2Em, c2Uniq)) ∧
      uniqueRouteIdOf c2UsersInfo ≠ uniqueRouteIdOf c2UsersIndexInfo :=
  ⟨⟨by decide, by decide⟩,
    c2_conflict_detection.1 c2Routes c2Rm "routes" 3 c2Em c2Uniq (by decide)
      (by decide) c2UsersInfo c2UsersIndexInfo (by decide) (by decide) (by decide)
      (by decide) (by decide) (by decide)⟩

/-- C10: in every route manifest that `flatRoutesUniversal` returns
successfully, no route is emitted under an index route: the tree assembler
recurses only into routes whose index flag is false, so a route whose
`parentId` names an index route of the map is silently omitted from the
output. -/
theorem c10_index_children_omitted :
    ∀ (appDir : String) (paths : List String) (pfx : String)
      (rm : List (String × RouteInfo)) (manifest : List ManifestRoute),
    getRouteMap appDir paths pfx = .ok rm →
    flatRoutesUniversal appDir paths pfx = .ok manifest →
    ∀ r p : RouteInfo, r ∈ rm.map Prod.snd → p ∈ rm.map Prod.snd →
      r.parentId = some p.id → p.index = true →
      posixJoin pfx r.id ∉ manifest.map ManifestRoute.id := by
  intro appDir paths pfx rm manifest hget hflat r p hr hp hpar hidx hmem
  unfold flatRoutesUniversal at hflat
  split at hflat
  · rename_i e heq
    rw [hget] at heq
    exact Except.noConfusion heq
  · rename_i u0 heq
    rw [hget] at heq
    have hu : rm = u0 := Except.ok.inj heq
    subst hu
    simp only [List.length_map] at hflat
    split at hflat
    · exact Except.noConfusion hflat
    · rename_i em u heq2
      simp only [Except.ok.injEq] at hflat
      subst hflat
      have hids : ((rm.map (fun e => e.2)).map RouteInfo.id).Nodup :=
        getRouteMap_ids_nodup appDir paths pfx rm hget
      obtain ⟨_, _, hemit⟩ :=
        defineNestedRoutesAux_good (rm.map (fun e => e.2)) rm pfx _ none [] em u heq2
      rw [List.mem_map] at hmem
      obtain ⟨e, he, heid⟩ := hmem
      obtain ⟨r', hr'R, hr'id, hr'par, _⟩ := hemit e he
      have hr'eq : r' = r :=
        nodup_ids_eq hids hr'R hr (posixJoin_inj pfx _ _ (by rw [← hr'id, heid]))
      rw [hr'eq] at hr'par
      rcases hr'par with hnone | ⟨q', hq', hq'idx, hq'par⟩
      · rw [hpar] at hnone
        cases hnone
      · rw [hpar] at hq'par
        have hqid : p.id = q'.id := by injection hq'par
        have hqp : q' = p := nodup_ids_eq hids hq' hp hqid.symm
        rw [hqp] at hq'idx
        rw [hidx] at hq'idx
        cases hq'idx

/-- C10 witness: on the index-with-child route set, the prefixed id of the
child `a._index.b` is absent from the returned manifest. -/
theorem c10_witness :
    (getRouteMap "app" c1Files "routes" = .ok c1Rm ∧
        flatRoutesUniversal "app" c1Files "routes" =
          .ok [{ id := "routes/a._index", path := "a",
                 file := "routes/a._index.tsx", index := true }]) ∧
      posixJoin "routes" c1InfoChild.id ∉
        ([{ id := "routes/a._index", path := "a", file := "routes/a._index.tsx",
            index := true }] : List ManifestRoute).map ManifestRoute.id :=
  ⟨⟨by decide, by decide⟩,
    c10_index_children_omitted "app" c1Files "routes" c1Rm
      [{ id := "routes/a._index", path := "a", file := "routes/a._index.tsx",
         index := true }] (by decide) (by decide)
      c1InfoChild c1InfoIndex (by decide) (by decide) (by decide) (by decide)⟩
